import Mathlib

/-!
Shallow embedding of the BLN protocol codec of the lazynet repository.

Bytes are modelled as `Nat` values (`u8` in the source); `f32` values are
modelled by their 32-bit patterns, since the codec only moves their bytes.

Embedded source files:
* protocol/src/utils.rs          (`calculate_bcc`)
* protocol/src/types.rs          (`Command`, `ProtocolError`)
* protocol/src/bln/types.rs      (`BlnProtocolType`, `BlnResponseStatus`, `BlnErrorCause`)
* protocol/src/bln/protocol.rs   (`BlnProtocol`: frame search, completeness, parse, create)
* protocol/src/bln/conversions.rs (the two `TryFrom` impls)
* bln/src/protocol/types.rs      (`BlnCommandEncoder`, `BlnCommandDecode`)
-/

namespace Lazynet

/-- protocol/src/utils.rs `calculate_bcc`: XOR fold of the bytes, seed 0. -/
def calculate_bcc (data : List Nat) : Nat :=
  data.foldl (fun bcc byte => bcc ^^^ byte) 0

/-- `u16::from_le_bytes [b0, b1]`. -/
def u16FromLeBytes (b0 b1 : Nat) : Nat := b0 + 256 * b1

/-- `u16::from_be_bytes [b0, b1]`. -/
def u16FromBeBytes (b0 b1 : Nat) : Nat := 256 * b0 + b1

/-- `put_u16_le n`: the two bytes of `n as u16`, little-endian. -/
def u16ToLeBytes (n : Nat) : List Nat := [n % 256, n / 256 % 256]

/-- `put_u16 n`: the two bytes of `n as u16`, big-endian. -/
def u16ToBeBytes (n : Nat) : List Nat := [n / 256 % 256, n % 256]

/-- `put_f32_le x`: the four little-endian bytes of the bit pattern of `x`. -/
def f32ToLeBytes (bits : Nat) : List Nat :=
  [bits % 256, bits / 256 % 256, bits / 65536 % 256, bits / 16777216 % 256]

/-- `get_f32_le`: the bit pattern read from the first four bytes of `l`. -/
def f32FromLeBytes (l : List Nat) : Nat :=
  l.getD 0 0 + 256 * l.getD 1 0 + 65536 * l.getD 2 0 + 16777216 * l.getD 3 0

/-- protocol/src/types.rs `Command`. -/
structure Command where
  cmd_type : List Nat
  response_status : Option Nat
  payload : Option (List Nat)
deriving DecidableEq

/-- protocol/src/types.rs `ProtocolError`. -/
inductive ProtocolError
  | CommandNotApplicable
  | InvalidCommandType
  | InvalidPayload
deriving DecidableEq

/-- protocol/src/bln/types.rs `BlnResponseStatus`. -/
inductive BlnResponseStatus
  | Unused
  | Ok
  | OkWithData
  | Error
  | Reserved
deriving DecidableEq

/-- protocol/src/bln/types.rs `impl From<u8> for BlnResponseStatus`. -/
def BlnResponseStatus.fromU8 (value : Nat) : BlnResponseStatus :=
  match value with
  | 0x00 => .Unused
  | 0x01 => .Ok
  | 0x02 => .OkWithData
  | 0x03 => .Error
  | _ => .Reserved

/-- protocol/src/bln/types.rs `BlnErrorCause`. -/
inductive BlnErrorCause
  | Success
  | ChecksumError
  | InvalidArgument
  | OperationFailed
  | ConfigNotFound
  | InternalError
  | StateMismatch
  | NoValidData
  | UnspecifiedError
deriving DecidableEq

/-- protocol/src/bln/types.rs `impl From<u8> for BlnErrorCause`. -/
def BlnErrorCause.fromU8 (value : Nat) : BlnErrorCause :=
  match value with
  | 0x00 => .Success
  | 0x01 => .ChecksumError
  | 0x02 => .InvalidArgument
  | 0x03 => .OperationFailed
  | 0x04 => .ConfigNotFound
  | 0x05 => .InternalError
  | 0x06 => .StateMismatch
  | 0x07 => .NoValidData
  | _ => .UnspecifiedError

/-- protocol/src/bln/types.rs `BlnProtocolType`; the `f32` fields are carried
as 32-bit patterns. -/
inductive BlnProtocolType
  | SetPositionRsq (pos1 pos2 : Nat)
  | SetPositionRsp
  | PositionReached (pos1 pos2 : Nat)
  | GetPositionRsq
  | GetPositionRsp (pos1 pos2 : Nat) (flag : Nat)
  | ErrorRsp (cause : BlnErrorCause)
deriving DecidableEq

/-- protocol/src/bln/conversions.rs `impl TryFrom<Command> for BlnProtocolType`.
The Rust `match cmd_byte` over the two `u8` literals is written as an
if-chain over equality with the same literals. -/
def BlnProtocolType.tryFromCommand (value : Command) : Except ProtocolError BlnProtocolType :=
  match value.cmd_type.head? with
  | none => .error .InvalidCommandType
  | some cmd_byte =>
    match value.response_status with
    | none => .error .InvalidPayload
    | some raw =>
      let status := BlnResponseStatus.fromU8 raw
      if status = .Error then
        match value.payload with
        | none => .error .InvalidPayload
        | some payload =>
          if payload.length = 1 then .ok (.ErrorRsp (BlnErrorCause.fromU8 (payload.headD 0)))
          else .error .InvalidPayload
      else if cmd_byte = 0x91 then
        match status with
        | .Ok =>
          if value.payload.isSome then .error .InvalidPayload
          else .ok .SetPositionRsp
        | .OkWithData =>
          match value.payload with
          | none => .error .InvalidPayload
          | some payload =>
            if payload.length = 8 then
              .ok (.PositionReached (f32FromLeBytes (payload.take 4))
                (f32FromLeBytes (payload.drop 4)))
            else .error .InvalidPayload
        | _ => .error .InvalidPayload
      else if cmd_byte = 0x93 then
        if status ≠ .OkWithData then .error .InvalidPayload
        else
          match value.payload with
          | none => .error .InvalidPayload
          | some payload =>
            if payload.length = 9 then
              .ok (.GetPositionRsp (f32FromLeBytes (payload.take 4))
                (f32FromLeBytes ((payload.drop 4).take 4)) (payload.getD 8 0))
            else .error .InvalidPayload
      else .error .InvalidCommandType

/-- protocol/src/bln/conversions.rs `impl TryFrom<BlnProtocolType> for Command`. -/
def Command.tryFromBlnProtocolType : BlnProtocolType → Except ProtocolError Command
  | .SetPositionRsq pos1 pos2 =>
    .ok ⟨[0x31], none, some (f32ToLeBytes pos1 ++ f32ToLeBytes pos2)⟩
  | .GetPositionRsq => .ok ⟨[0x33], none, none⟩
  | _ => .error .InvalidCommandType

/-- Shared by `BlnProtocol::find_frame_head` (protocol/src/bln/protocol.rs) and
`BlnCommandDecode::find_frame_head` (bln/src/protocol/types.rs), which are
textually identical: the `windows(2).position` search for `[0x55, 0xAA]`.
Returns the index of the first sync pattern, `none` when absent. -/
def find_frame_head? : List Nat → Option Nat
  | [] => none
  | [_] => none
  | a :: b :: rest =>
    if a = 0x55 ∧ b = 0xAA then some 0
    else (find_frame_head? (b :: rest)).map (· + 1)

/-- Shared `decode_length_flags`: low 13 bits are the payload length, the high
3 bits of the 16-bit field are the status flags. -/
def decode_length_flags (len_field : Nat) : Nat × Nat :=
  (len_field &&& 0x1FFF, (len_field &&& 0xE000) >>> 13)

namespace BlnProtocol

/-- protocol/src/bln/protocol.rs `BlnProtocol::is_frame_complete`: reads the
length field at offsets 7-8 as little-endian. -/
def is_frame_complete (buf : List Nat) : Option Nat :=
  if buf.length < 10 then none
  else
    let len_field := u16FromLeBytes (buf.getD 7 0) (buf.getD 8 0)
    let frame_len := (decode_length_flags len_field).1 + 10
    if buf.length < frame_len then none
    else some frame_len

/-- The body of the BCC-match branch of `parse_protocol_frame`: split off the
frame, skip the head, read the command byte, skip the reserved bytes, decode
the little-endian length/flags field, and take the payload when nonempty. -/
def decode_frame (frame : List Nat) : Command :=
  let cmd_type_byte := frame.getD 2 0
  let df := decode_length_flags (u16FromLeBytes (frame.getD 7 0) (frame.getD 8 0))
  let payload := if 0 < df.1 then some ((frame.drop 9).take df.1) else none
  ⟨[cmd_type_byte], some df.2, payload⟩

/-- The `loop` of protocol/src/bln/protocol.rs `parse_protocol_frame`; on a BCC
mismatch the whole matched frame span is discarded (`buf.advance(frame_len)`).
`fuel` bounds the number of iterations; `parse_protocol_frame` supplies
`buf.length + 1`, and `parse_go_congr` below shows the bound is never hit. -/
def parse_go : Nat → List Nat → List Command × List Nat
  | 0, buf => ([], buf)
  | fuel + 1, buf =>
    match find_frame_head? buf with
    | none => ([], buf)
    | some i =>
      match is_frame_complete (buf.drop i) with
      | none => ([], buf.drop i)
      | some frame_len =>
        let b := buf.drop i
        if calculate_bcc ((b.take (frame_len - 1)).drop 2) = b.getD (frame_len - 1) 0 then
          let res := parse_go fuel (buf.drop (i + frame_len))
          (decode_frame (b.take frame_len) :: res.1, res.2)
        else
          parse_go fuel (buf.drop (i + frame_len))

/-- protocol/src/bln/protocol.rs `BlnProtocol::parse_protocol_frame`: the
extracted commands in order, and the residual buffer.  (The source wraps an
empty command list as `None`; the list itself carries the same information.) -/
def parse_protocol_frame (buf : List Nat) : List Command × List Nat :=
  parse_go (buf.length + 1) buf

/-- protocol/src/bln/protocol.rs `BlnProtocol::create_frame`, applied to the
already-converted `Command` (the generic `T: TryInto<Command>` front end just
forwards the conversion error): sync word, command byte, four reserved zero
bytes, little-endian length field, payload, BCC over bytes `[2, end)`. -/
def create_frame (command : Command) : Except ProtocolError (List Nat) :=
  if command.cmd_type.length ≠ 1 then .error .InvalidCommandType
  else
    let cmd_byte := command.cmd_type.getD 0 0
    let data := command.payload.getD []
    let front := [0x55, 0xAA] ++ [cmd_byte] ++ [0, 0, 0, 0] ++ u16ToLeBytes data.length ++ data
    .ok (front ++ [calculate_bcc (front.drop 2)])

end BlnProtocol

namespace BlnCommandDecode

/-- bln/src/protocol/types.rs `BlnCommandDecode::is_frame_complete`: identical
to the protocol crate's version except the length field is read with
`u16::from_be_bytes` (big-endian). -/
def is_frame_complete (buf : List Nat) : Option Nat :=
  if buf.length < 10 then none
  else
    let len_field := u16FromBeBytes (buf.getD 7 0) (buf.getD 8 0)
    let frame_len := (decode_length_flags len_field).1 + 10
    if buf.length < frame_len then none
    else some frame_len

/-- The BCC-match branch of `BlnCommandDecode::parse_protocol_frame`; the
length/flags field is read with `get_u16` (big-endian). -/
def decode_frame (frame : List Nat) : Command :=
  let cmd_type_byte := frame.getD 2 0
  let df := decode_length_flags (u16FromBeBytes (frame.getD 7 0) (frame.getD 8 0))
  let payload := if 0 < df.1 then some ((frame.drop 9).take df.1) else none
  ⟨[cmd_type_byte], some df.2, payload⟩

/-- The `loop` of bln/src/protocol/types.rs `parse_protocol_frame`; on a BCC
mismatch only one byte is discarded (`buf.advance(1)`). -/
def parse_go : Nat → List Nat → List Command × List Nat
  | 0, buf => ([], buf)
  | fuel + 1, buf =>
    match find_frame_head? buf with
    | none => ([], buf)
    | some i =>
      match is_frame_complete (buf.drop i) with
      | none => ([], buf.drop i)
      | some frame_len =>
        let b := buf.drop i
        if calculate_bcc ((b.take (frame_len - 1)).drop 2) = b.getD (frame_len - 1) 0 then
          let res := parse_go fuel (buf.drop (i + frame_len))
          (decode_frame (b.take frame_len) :: res.1, res.2)
        else
          parse_go fuel (buf.drop (i + 1))

/-- bln/src/protocol/types.rs `BlnCommandDecode::parse_protocol_frame`. -/
def parse_protocol_frame (buf : List Nat) : List Command × List Nat :=
  parse_go (buf.length + 1) buf

end BlnCommandDecode

/-- bln/src/protocol/types.rs `BlnCommandEncoder::create_frame`: identical to
the protocol crate's encoder except the length field is written with
`put_u16` (big-endian). -/
def BlnCommandEncoder.create_frame (command : Command) : Except ProtocolError (List Nat) :=
  if command.cmd_type.length ≠ 1 then .error .InvalidCommandType
  else
    let cmd_byte := command.cmd_type.getD 0 0
    let data := command.payload.getD []
    let front := [0x55, 0xAA] ++ [cmd_byte] ++ [0, 0, 0, 0] ++ u16ToBeBytes data.length ++ data
    .ok (front ++ [calculate_bcc (front.drop 2)])

/-- The full outbound-then-inbound pipeline of claim C1: event to `Command`,
`Command` to frame bytes, frame bytes back through the parser, each parsed
`Command` back through the event mapping. -/
def bln_round_trip (e : BlnProtocolType) :
    Except ProtocolError (List (Except ProtocolError BlnProtocolType)) :=
  (Command.tryFromBlnProtocolType e).bind fun cmd =>
    (BlnProtocol.create_frame cmd).map fun bytes =>
      ((BlnProtocol.parse_protocol_frame bytes).1).map BlnProtocolType.tryFromCommand

/-- The bytes of a well-formed little-endian frame before the BCC byte. -/
def frame_front_le (c : Nat) (p : List Nat) : List Nat :=
  [0x55, 0xAA, c, 0, 0, 0, 0] ++ u16ToLeBytes p.length ++ p

/-- A well-formed little-endian frame: `frame_front_le` plus its BCC. -/
def frame_bytes_le (c : Nat) (p : List Nat) : List Nat :=
  frame_front_le c p ++ [calculate_bcc ((frame_front_le c p).drop 2)]

/-- The bytes of a well-formed big-endian frame before the BCC byte. -/
def frame_front_be (c : Nat) (p : List Nat) : List Nat :=
  [0x55, 0xAA, c, 0, 0, 0, 0] ++ u16ToBeBytes p.length ++ p

/-- A well-formed big-endian frame: `frame_front_be` plus its BCC. -/
def frame_bytes_be (c : Nat) (p : List Nat) : List Nat :=
  frame_front_be c p ++ [calculate_bcc ((frame_front_be c p).drop 2)]

/-- A frame whose trailing BCC byte `b` replaces the correct checksum. -/
def corrupt_frame_le (c : Nat) (p : List Nat) (b : Nat) : List Nat :=
  frame_front_le c p ++ [b]

/-- A big-endian frame whose trailing BCC byte `b` replaces the correct checksum. -/
def corrupt_frame_be (c : Nat) (p : List Nat) (b : Nat) : List Nat :=
  frame_front_be c p ++ [b]

deriving instance DecidableEq for Except

/-! Helper lemmas about the embedded definitions. -/

theorem find_frame_head?_bound :
    ∀ {buf : List Nat} {i : Nat}, find_frame_head? buf = some i → i + 2 ≤ buf.length := by
  intro buf
  induction buf with
  | nil => intro i h; simp [find_frame_head?] at h
  | cons a t ih =>
    intro i h
    match t with
    | [] => simp [find_frame_head?] at h
    | b :: rest =>
      rw [find_frame_head?] at h
      by_cases hab : a = 0x55 ∧ b = 0xAA
      · simp [hab] at h
        simp only [List.length_cons]
        omega
      · simp [hab] at h
        obtain ⟨j, hj, rfl⟩ := h
        have := ih hj
        simp at this ⊢
        omega

theorem find_frame_head?_cons_sync (rest : List Nat) :
    find_frame_head? (0x55 :: 0xAA :: rest) = some 0 := by
  rw [find_frame_head?]; simp

theorem find_frame_head?_short {buf : List Nat} (h : buf.length ≤ 1) :
    find_frame_head? buf = none := by
  match buf with
  | [] => rfl
  | [_] => rfl
  | _ :: _ :: _ => simp at h

theorem find_frame_head?_append_sync :
    ∀ (ns : List Nat) (rest : List Nat), find_frame_head? ns = none →
      find_frame_head? (ns ++ 0x55 :: 0xAA :: rest) = some ns.length := by
  intro ns
  induction ns with
  | nil => intro rest _; simpa using find_frame_head?_cons_sync rest
  | cons a t ih =>
    intro rest h
    match t with
    | [] =>
      rw [List.cons_append, List.nil_append, find_frame_head?]
      have : ¬(a = 0x55 ∧ (0x55 : Nat) = 0xAA) := by omega
      simp [this, find_frame_head?_cons_sync]
    | b :: t' =>
      rw [find_frame_head?] at h
      by_cases hab : a = 0x55 ∧ b = 0xAA
      · simp [hab] at h
      · simp [hab] at h
        rw [List.cons_append, List.cons_append, find_frame_head?]
        have hrec := ih rest h
        rw [List.cons_append] at hrec
        simp [hab, hrec]

theorem and_1fff_of_le {n : Nat} (h : n ≤ 8191) : n &&& 0x1FFF = n := by
  have : n < 2 ^ 13 := by omega
  have := Nat.and_pow_two_sub_one_of_lt_two_pow this
  norm_num at this
  exact this

theorem and_1fff_le (x : Nat) : x &&& 0x1FFF ≤ 8191 :=
  Nat.and_le_right

theorem flags_zero_of_le {n : Nat} (h : n ≤ 8191) : (n &&& 0xE000) >>> 13 = 0 := by
  have h1 : n &&& 0xE000 ≤ n := Nat.and_le_left
  rw [Nat.shiftRight_eq_div_pow]
  norm_num
  omega

theorem flags_le_seven (x : Nat) : (x &&& 0xE000) >>> 13 ≤ 7 := by
  have h1 : x &&& 0xE000 ≤ 0xE000 := Nat.and_le_right
  rw [Nat.shiftRight_eq_div_pow]
  norm_num
  omega

theorem decode_length_flags_of_le {n : Nat} (h : n ≤ 8191) :
    decode_length_flags n = (n, 0) := by
  simp [decode_length_flags, and_1fff_of_le h, flags_zero_of_le h]

theorem BlnProtocol.is_frame_complete_bounds {buf : List Nat} {L : Nat}
    (h : BlnProtocol.is_frame_complete buf = some L) :
    10 ≤ L ∧ L ≤ buf.length := by
  rw [BlnProtocol.is_frame_complete] at h
  by_cases h10 : buf.length < 10
  · simp [h10] at h
  · simp [h10] at h
    omega

theorem BlnCommandDecode.is_frame_complete_bounds_be {buf : List Nat} {L : Nat}
    (h : BlnCommandDecode.is_frame_complete buf = some L) :
    10 ≤ L ∧ L ≤ buf.length := by
  rw [BlnCommandDecode.is_frame_complete] at h
  by_cases h10 : buf.length < 10
  · simp [h10] at h
  · simp [h10] at h
    omega

theorem BlnProtocol.parse_go_congr :
    ∀ (fuel fuel' : Nat) (buf : List Nat), buf.length < fuel → buf.length < fuel' →
      BlnProtocol.parse_go fuel buf = BlnProtocol.parse_go fuel' buf := by
  intro fuel
  induction fuel using Nat.strong_induction_on with
  | _ fuel ih =>
    intro fuel' buf h h'
    match fuel, h with
    | f + 1, h =>
      match fuel', h' with
      | f' + 1, h' =>
        rw [BlnProtocol.parse_go, BlnProtocol.parse_go]
        cases hfind : find_frame_head? buf with
        | none => rfl
        | some i =>
          cases hcomp : BlnProtocol.is_frame_complete (buf.drop i) with
          | none => simp [hcomp]
          | some L =>
            have hb1 := find_frame_head?_bound hfind
            have hb2 := BlnProtocol.is_frame_complete_bounds hcomp
            simp only [List.length_drop] at hb2
            have hlen : (buf.drop (i + L)).length < f := by
              simp only [List.length_drop]; omega
            have hlen' : (buf.drop (i + L)).length < f' := by
              simp only [List.length_drop]; omega
            have hrec := ih f (by omega) f' (buf.drop (i + L)) hlen hlen'
            simp [hcomp, hrec]

theorem BlnCommandDecode.parse_go_congr_be :
    ∀ (fuel fuel' : Nat) (buf : List Nat), buf.length < fuel → buf.length < fuel' →
      BlnCommandDecode.parse_go fuel buf = BlnCommandDecode.parse_go fuel' buf := by
  intro fuel
  induction fuel using Nat.strong_induction_on with
  | _ fuel ih =>
    intro fuel' buf h h'
    match fuel, h with
    | f + 1, h =>
      match fuel', h' with
      | f' + 1, h' =>
        rw [BlnCommandDecode.parse_go, BlnCommandDecode.parse_go]
        cases hfind : find_frame_head? buf with
        | none => rfl
        | some i =>
          cases hcomp : BlnCommandDecode.is_frame_complete (buf.drop i) with
          | none => simp [hcomp]
          | some L =>
            have hb1 := find_frame_head?_bound hfind
            have hb2 := BlnCommandDecode.is_frame_complete_bounds_be hcomp
            simp only [List.length_drop] at hb2
            have hlen : (buf.drop (i + L)).length < f := by
              simp only [List.length_drop]; omega
            have hlen' : (buf.drop (i + L)).length < f' := by
              simp only [List.length_drop]; omega
            have hlen1 : (buf.drop (i + 1)).length < f := by
              simp only [List.length_drop]; omega
            have hlen1' : (buf.drop (i + 1)).length < f' := by
              simp only [List.length_drop]; omega
            have hrec := ih f (by omega) f' (buf.drop (i + L)) hlen hlen'
            have hrec1 := ih f (by omega) f' (buf.drop (i + 1)) hlen1 hlen1'
            simp [hcomp, hrec, hrec1]

theorem frame_bytes_le_cons (c : Nat) (p rest : List Nat) :
    frame_bytes_le c p ++ rest =
      0x55 :: 0xAA :: c :: 0 :: 0 :: 0 :: 0 :: (p.length % 256) :: (p.length / 256 % 256) ::
        (p ++ calculate_bcc ((frame_front_le c p).drop 2) :: rest) := by
  simp [frame_bytes_le, frame_front_le, u16ToLeBytes]

theorem frame_bytes_be_cons (c : Nat) (p rest : List Nat) :
    frame_bytes_be c p ++ rest =
      0x55 :: 0xAA :: c :: 0 :: 0 :: 0 :: 0 :: (p.length / 256 % 256) :: (p.length % 256) ::
        (p ++ calculate_bcc ((frame_front_be c p).drop 2) :: rest) := by
  simp [frame_bytes_be, frame_front_be, u16ToBeBytes]

theorem frame_front_le_length (c : Nat) (p : List Nat) :
    (frame_front_le c p).length = p.length + 9 := by
  simp [frame_front_le, u16ToLeBytes]

theorem frame_bytes_le_length (c : Nat) (p : List Nat) :
    (frame_bytes_le c p).length = p.length + 10 := by
  simp [frame_bytes_le, frame_front_le_length]

theorem frame_front_be_length (c : Nat) (p : List Nat) :
    (frame_front_be c p).length = p.length + 9 := by
  simp [frame_front_be, u16ToBeBytes]

theorem frame_bytes_be_length (c : Nat) (p : List Nat) :
    (frame_bytes_be c p).length = p.length + 10 := by
  simp [frame_bytes_be, frame_front_be_length]

theorem BlnProtocol.is_frame_complete_eq_some {buf : List Nat} {n : Nat}
    (h7 : buf.getD 7 0 = n % 256) (h8 : buf.getD 8 0 = n / 256 % 256)
    (hn : n ≤ 8191) (hlen : n + 10 ≤ buf.length) :
    BlnProtocol.is_frame_complete buf = some (n + 10) := by
  rw [BlnProtocol.is_frame_complete, h7, h8]
  have hfield : u16FromLeBytes (n % 256) (n / 256 % 256) = n := by
    simp [u16FromLeBytes]; omega
  rw [hfield]
  simp only [decode_length_flags_of_le hn]
  have h1 : ¬ buf.length < 10 := by omega
  have h2 : ¬ buf.length < n + 10 := by omega
  simp [h1, h2]

theorem BlnCommandDecode.is_frame_complete_eq_some_be {buf : List Nat} {n : Nat}
    (h7 : buf.getD 7 0 = n / 256 % 256) (h8 : buf.getD 8 0 = n % 256)
    (hn : n ≤ 8191) (hlen : n + 10 ≤ buf.length) :
    BlnCommandDecode.is_frame_complete buf = some (n + 10) := by
  rw [BlnCommandDecode.is_frame_complete, h7, h8]
  have hfield : u16FromBeBytes (n / 256 % 256) (n % 256) = n := by
    simp [u16FromBeBytes]; omega
  rw [hfield]
  simp only [decode_length_flags_of_le hn]
  have h1 : ¬ buf.length < 10 := by omega
  have h2 : ¬ buf.length < n + 10 := by omega
  simp [h1, h2]

theorem BlnProtocol.decode_frame_eq {frame : List Nat} {c n : Nat} {p : List Nat}
    (h2 : frame.getD 2 0 = c) (h7 : frame.getD 7 0 = n % 256)
    (h8 : frame.getD 8 0 = n / 256 % 256) (hn : n ≤ 8191)
    (hp : (frame.drop 9).take n = p) :
    BlnProtocol.decode_frame frame = ⟨[c], some 0, if 0 < n then some p else none⟩ := by
  rw [BlnProtocol.decode_frame, h2, h7, h8]
  have hfield : u16FromLeBytes (n % 256) (n / 256 % 256) = n := by
    simp [u16FromLeBytes]; omega
  rw [hfield, decode_length_flags_of_le hn]
  simp [hp]

theorem BlnCommandDecode.decode_frame_eq_be {frame : List Nat} {c n : Nat} {p : List Nat}
    (h2 : frame.getD 2 0 = c) (h7 : frame.getD 7 0 = n / 256 % 256)
    (h8 : frame.getD 8 0 = n % 256) (hn : n ≤ 8191)
    (hp : (frame.drop 9).take n = p) :
    BlnCommandDecode.decode_frame frame = ⟨[c], some 0, if 0 < n then some p else none⟩ := by
  rw [BlnCommandDecode.decode_frame, h2, h7, h8]
  have hfield : u16FromBeBytes (n / 256 % 256) (n % 256) = n := by
    simp [u16FromBeBytes]; omega
  rw [hfield, decode_length_flags_of_le hn]
  simp [hp]

theorem BlnProtocol.parse_good_frame (ns : List Nat) (c : Nat) (p rest : List Nat)
    (hns : find_frame_head? ns = none) (hp : p.length ≤ 8191) :
    BlnProtocol.parse_protocol_frame (ns ++ (frame_bytes_le c p ++ rest)) =
      (⟨[c], some 0, if 0 < p.length then some p else none⟩ ::
          (BlnProtocol.parse_protocol_frame rest).1,
        (BlnProtocol.parse_protocol_frame rest).2) := by
  have hcons := frame_bytes_le_cons c p rest
  have hK : frame_bytes_le c p = frame_front_le c p ++ [calculate_bcc ((frame_front_le c p).drop 2)] := rfl
  have hfrontlen := frame_front_le_length c p
  have hFlen := frame_bytes_le_length c p
  have hfind : find_frame_head? (ns ++ (frame_bytes_le c p ++ rest)) = some ns.length := by
    rw [hcons]
    exact find_frame_head?_append_sync ns _ hns
  have hdropns : (ns ++ (frame_bytes_le c p ++ rest)).drop ns.length = frame_bytes_le c p ++ rest :=
    List.drop_left ns _
  have h7 : (frame_bytes_le c p ++ rest).getD 7 0 = p.length % 256 := by
    rw [hcons]; rfl
  have h8 : (frame_bytes_le c p ++ rest).getD 8 0 = p.length / 256 % 256 := by
    rw [hcons]; rfl
  have hlenFR : (frame_bytes_le c p ++ rest).length = p.length + 10 + rest.length := by
    simp [hFlen]
  have hcomp : BlnProtocol.is_frame_complete (frame_bytes_le c p ++ rest) = some (p.length + 10) :=
    BlnProtocol.is_frame_complete_eq_some h7 h8 hp (by omega)
  have htake9 : (frame_bytes_le c p ++ rest).take (p.length + 10 - 1) = frame_front_le c p := by
    rw [hK, List.append_assoc]
    exact List.take_left' (by omega)
  have hgetK : (frame_bytes_le c p ++ rest).getD (p.length + 10 - 1) 0 =
      calculate_bcc ((frame_front_le c p).drop 2) := by
    rw [hK, List.append_assoc, List.getD_append_right _ _ _ _ (by omega)]
    have h0 : p.length + 10 - 1 - (frame_front_le c p).length = 0 := by omega
    rw [h0]
    rfl
  have hbcc : calculate_bcc (((frame_bytes_le c p ++ rest).take (p.length + 10 - 1)).drop 2) =
      (frame_bytes_le c p ++ rest).getD (p.length + 10 - 1) 0 := by
    rw [htake9, hgetK]
  have htakeF : (frame_bytes_le c p ++ rest).take (p.length + 10) = frame_bytes_le c p :=
    List.take_left' hFlen
  have hdrop9 : ((frame_bytes_le c p).drop 9).take p.length = p := by
    have : frame_bytes_le c p ++ ([] : List Nat) = frame_bytes_le c p := by simp
    rw [← this, frame_bytes_le_cons]
    show (p ++ [calculate_bcc ((frame_front_le c p).drop 2)]).take p.length = p
    exact List.take_left' rfl
  have hdec : BlnProtocol.decode_frame ((frame_bytes_le c p ++ rest).take (p.length + 10)) =
      ⟨[c], some 0, if 0 < p.length then some p else none⟩ := by
    rw [htakeF]
    refine BlnProtocol.decode_frame_eq ?_ ?_ ?_ hp hdrop9
    · have : frame_bytes_le c p ++ ([] : List Nat) = frame_bytes_le c p := by simp
      rw [← this, frame_bytes_le_cons]; rfl
    · have : frame_bytes_le c p ++ ([] : List Nat) = frame_bytes_le c p := by simp
      rw [← this, frame_bytes_le_cons]; rfl
    · have : frame_bytes_le c p ++ ([] : List Nat) = frame_bytes_le c p := by simp
      rw [← this, frame_bytes_le_cons]; rfl
  have hdroprest : (ns ++ (frame_bytes_le c p ++ rest)).drop (ns.length + (p.length + 10)) = rest := by
    rw [← List.append_assoc]
    have hlen2 : (ns ++ frame_bytes_le c p).length = ns.length + (p.length + 10) := by
      simp [hFlen]
    rw [← hlen2]
    exact List.drop_left _ _
  have hcongr : ∀ m, rest.length < m →
      BlnProtocol.parse_go m rest = BlnProtocol.parse_protocol_frame rest := by
    intro m hm
    rw [BlnProtocol.parse_protocol_frame]
    exact BlnProtocol.parse_go_congr m _ rest hm (Nat.lt_succ_self _)
  have hcongr2 := hcongr (ns.length + ((frame_bytes_le c p).length + rest.length))
    (by rw [hFlen]; omega)
  rw [BlnProtocol.parse_protocol_frame, BlnProtocol.parse_go, hfind]
  simp only [hdropns, hcomp, hbcc, hdec, hdroprest]
  simp [hcongr2]

theorem corrupt_frame_le_cons (c : Nat) (p : List Nat) (b : Nat) (rest : List Nat) :
    corrupt_frame_le c p b ++ rest =
      0x55 :: 0xAA :: c :: 0 :: 0 :: 0 :: 0 :: (p.length % 256) :: (p.length / 256 % 256) ::
        (p ++ b :: rest) := by
  simp [corrupt_frame_le, frame_front_le, u16ToLeBytes]

theorem corrupt_frame_be_cons (c : Nat) (p : List Nat) (b : Nat) (rest : List Nat) :
    corrupt_frame_be c p b ++ rest =
      0x55 :: 0xAA :: c :: 0 :: 0 :: 0 :: 0 :: (p.length / 256 % 256) :: (p.length % 256) ::
        (p ++ b :: rest) := by
  simp [corrupt_frame_be, frame_front_be, u16ToBeBytes]

theorem corrupt_frame_le_length (c : Nat) (p : List Nat) (b : Nat) :
    (corrupt_frame_le c p b).length = p.length + 10 := by
  simp [corrupt_frame_le, frame_front_le_length]

theorem corrupt_frame_be_length (c : Nat) (p : List Nat) (b : Nat) :
    (corrupt_frame_be c p b).length = p.length + 10 := by
  simp [corrupt_frame_be, frame_front_be_length]

theorem BlnProtocol.parse_none {buf : List Nat} (h : find_frame_head? buf = none) :
    BlnProtocol.parse_protocol_frame buf = ([], buf) := by
  rw [BlnProtocol.parse_protocol_frame, BlnProtocol.parse_go, h]

theorem BlnCommandDecode.parse_none_be {buf : List Nat} (h : find_frame_head? buf = none) :
    BlnCommandDecode.parse_protocol_frame buf = ([], buf) := by
  rw [BlnCommandDecode.parse_protocol_frame, BlnCommandDecode.parse_go, h]

theorem BlnProtocol.parse_bad_frame (ns : List Nat) (c : Nat) (p : List Nat) (b : Nat)
    (rest : List Nat) (hns : find_frame_head? ns = none) (hp : p.length ≤ 8191)
    (hb : b ≠ calculate_bcc ((frame_front_le c p).drop 2)) :
    BlnProtocol.parse_protocol_frame (ns ++ (corrupt_frame_le c p b ++ rest)) =
      BlnProtocol.parse_protocol_frame rest := by
  have hcons := corrupt_frame_le_cons c p b rest
  have hfrontlen := frame_front_le_length c p
  have hFlen := corrupt_frame_le_length c p b
  have hfind : find_frame_head? (ns ++ (corrupt_frame_le c p b ++ rest)) = some ns.length := by
    rw [hcons]
    exact find_frame_head?_append_sync ns _ hns
  have hdropns : (ns ++ (corrupt_frame_le c p b ++ rest)).drop ns.length =
      corrupt_frame_le c p b ++ rest :=
    List.drop_left ns _
  have h7 : (corrupt_frame_le c p b ++ rest).getD 7 0 = p.length % 256 := by
    rw [hcons]; rfl
  have h8 : (corrupt_frame_le c p b ++ rest).getD 8 0 = p.length / 256 % 256 := by
    rw [hcons]; rfl
  have hlenFR : (corrupt_frame_le c p b ++ rest).length = p.length + 10 + rest.length := by
    simp [hFlen]
  have hcomp : BlnProtocol.is_frame_complete (corrupt_frame_le c p b ++ rest) =
      some (p.length + 10) :=
    BlnProtocol.is_frame_complete_eq_some h7 h8 hp (by omega)
  have htake9 : (corrupt_frame_le c p b ++ rest).take (p.length + 10 - 1) = frame_front_le c p := by
    rw [corrupt_frame_le, List.append_assoc]
    exact List.take_left' (by omega)
  have hgetb : (corrupt_frame_le c p b ++ rest).getD (p.length + 10 - 1) 0 = b := by
    rw [corrupt_frame_le, List.append_assoc, List.getD_append_right _ _ _ _ (by omega)]
    have h0 : p.length + 10 - 1 - (frame_front_le c p).length = 0 := by omega
    rw [h0]
    rfl
  have hdroprest : (ns ++ (corrupt_frame_le c p b ++ rest)).drop (ns.length + (p.length + 10)) =
      rest := by
    rw [← List.append_assoc]
    have hlen2 : (ns ++ corrupt_frame_le c p b).length = ns.length + (p.length + 10) := by
      simp [hFlen]
    rw [← hlen2]
    exact List.drop_left _ _
  have hcongr : ∀ m, rest.length < m →
      BlnProtocol.parse_go m rest = BlnProtocol.parse_protocol_frame rest := by
    intro m hm
    rw [BlnProtocol.parse_protocol_frame]
    exact BlnProtocol.parse_go_congr m _ rest hm (Nat.lt_succ_self _)
  have hcongr2 := hcongr (ns.length + ((corrupt_frame_le c p b).length + rest.length))
    (by rw [hFlen]; omega)
  rw [BlnProtocol.parse_protocol_frame, BlnProtocol.parse_go, hfind]
  simp only [hdropns, hcomp, htake9, hgetb]
  rw [if_neg (Ne.symm hb)]
  simp only [hdroprest]
  simp [hcongr2]

theorem BlnCommandDecode.parse_good_frame_be (ns : List Nat) (c : Nat) (p rest : List Nat)
    (hns : find_frame_head? ns = none) (hp : p.length ≤ 8191) :
    BlnCommandDecode.parse_protocol_frame (ns ++ (frame_bytes_be c p ++ rest)) =
      (⟨[c], some 0, if 0 < p.length then some p else none⟩ ::
          (BlnCommandDecode.parse_protocol_frame rest).1,
        (BlnCommandDecode.parse_protocol_frame rest).2) := by
  have hcons := frame_bytes_be_cons c p rest
  have hK : frame_bytes_be c p =
      frame_front_be c p ++ [calculate_bcc ((frame_front_be c p).drop 2)] := rfl
  have hfrontlen := frame_front_be_length c p
  have hFlen := frame_bytes_be_length c p
  have hfind : find_frame_head? (ns ++ (frame_bytes_be c p ++ rest)) = some ns.length := by
    rw [hcons]
    exact find_frame_head?_append_sync ns _ hns
  have hdropns : (ns ++ (frame_bytes_be c p ++ rest)).drop ns.length = frame_bytes_be c p ++ rest :=
    List.drop_left ns _
  have h7 : (frame_bytes_be c p ++ rest).getD 7 0 = p.length / 256 % 256 := by
    rw [hcons]; rfl
  have h8 : (frame_bytes_be c p ++ rest).getD 8 0 = p.length % 256 := by
    rw [hcons]; rfl
  have hlenFR : (frame_bytes_be c p ++ rest).length = p.length + 10 + rest.length := by
    simp [hFlen]
  have hcomp : BlnCommandDecode.is_frame_complete (frame_bytes_be c p ++ rest) =
      some (p.length + 10) :=
    BlnCommandDecode.is_frame_complete_eq_some_be h7 h8 hp (by omega)
  have htake9 : (frame_bytes_be c p ++ rest).take (p.length + 10 - 1) = frame_front_be c p := by
    rw [hK, List.append_assoc]
    exact List.take_left' (by omega)
  have hgetK : (frame_bytes_be c p ++ rest).getD (p.length + 10 - 1) 0 =
      calculate_bcc ((frame_front_be c p).drop 2) := by
    rw [hK, List.append_assoc, List.getD_append_right _ _ _ _ (by omega)]
    have h0 : p.length + 10 - 1 - (frame_front_be c p).length = 0 := by omega
    rw [h0]
    rfl
  have hbcc : calculate_bcc (((frame_bytes_be c p ++ rest).take (p.length + 10 - 1)).drop 2) =
      (frame_bytes_be c p ++ rest).getD (p.length + 10 - 1) 0 := by
    rw [htake9, hgetK]
  have htakeF : (frame_bytes_be c p ++ rest).take (p.length + 10) = frame_bytes_be c p :=
    List.take_left' hFlen
  have hdrop9 : ((frame_bytes_be c p).drop 9).take p.length = p := by
    have h1 : frame_bytes_be c p ++ ([] : List Nat) = frame_bytes_be c p := by simp
    rw [← h1, frame_bytes_be_cons]
    show (p ++ [calculate_bcc ((frame_front_be c p).drop 2)]).take p.length = p
    exact List.take_left' rfl
  have hdec : BlnCommandDecode.decode_frame ((frame_bytes_be c p ++ rest).take (p.length + 10)) =
      ⟨[c], some 0, if 0 < p.length then some p else none⟩ := by
    rw [htakeF]
    refine BlnCommandDecode.decode_frame_eq_be ?_ ?_ ?_ hp hdrop9
    · have h1 : frame_bytes_be c p ++ ([] : List Nat) = frame_bytes_be c p := by simp
      rw [← h1, frame_bytes_be_cons]; rfl
    · have h1 : frame_bytes_be c p ++ ([] : List Nat) = frame_bytes_be c p := by simp
      rw [← h1, frame_bytes_be_cons]; rfl
    · have h1 : frame_bytes_be c p ++ ([] : List Nat) = frame_bytes_be c p := by simp
      rw [← h1, frame_bytes_be_cons]; rfl
  have hdroprest : (ns ++ (frame_bytes_be c p ++ rest)).drop (ns.length + (p.length + 10)) =
      rest := by
    rw [← List.append_assoc]
    have hlen2 : (ns ++ frame_bytes_be c p).length = ns.length + (p.length + 10) := by
      simp [hFlen]
    rw [← hlen2]
    exact List.drop_left _ _
  have hcongr : ∀ m, rest.length < m →
      BlnCommandDecode.parse_go m rest = BlnCommandDecode.parse_protocol_frame rest := by
    intro m hm
    rw [BlnCommandDecode.parse_protocol_frame]
    exact BlnCommandDecode.parse_go_congr_be m _ rest hm (Nat.lt_succ_self _)
  have hcongr2 := hcongr (ns.length + ((frame_bytes_be c p).length + rest.length))
    (by rw [hFlen]; omega)
  rw [BlnCommandDecode.parse_protocol_frame, BlnCommandDecode.parse_go, hfind]
  simp only [hdropns, hcomp, hbcc, hdec, hdroprest]
  simp [hcongr2]

theorem BlnCommandDecode.parse_bad_frame_be (c : Nat) (p : List Nat) (b : Nat)
    (hp : p.length ≤ 8191)
    (hb : b ≠ calculate_bcc ((frame_front_be c p).drop 2))
    (hafter : find_frame_head? ((corrupt_frame_be c p b).drop 1) = none) :
    BlnCommandDecode.parse_protocol_frame (corrupt_frame_be c p b) =
      ([], (corrupt_frame_be c p b).drop 1) := by
  have hcons : corrupt_frame_be c p b =
      0x55 :: 0xAA :: c :: 0 :: 0 :: 0 :: 0 :: (p.length / 256 % 256) :: (p.length % 256) ::
        (p ++ b :: []) := by
    have h1 : corrupt_frame_be c p b ++ ([] : List Nat) = corrupt_frame_be c p b := by simp
    rw [← h1, corrupt_frame_be_cons]
  have hfrontlen := frame_front_be_length c p
  have hFlen := corrupt_frame_be_length c p b
  have hfind : find_frame_head? (corrupt_frame_be c p b) = some 0 := by
    rw [hcons]
    exact find_frame_head?_cons_sync _
  have hdrop0 : (corrupt_frame_be c p b).drop 0 = corrupt_frame_be c p b :=
    List.drop_zero _
  have h7 : (corrupt_frame_be c p b).getD 7 0 = p.length / 256 % 256 := by
    rw [hcons]; rfl
  have h8 : (corrupt_frame_be c p b).getD 8 0 = p.length % 256 := by
    rw [hcons]; rfl
  have hcomp : BlnCommandDecode.is_frame_complete (corrupt_frame_be c p b) =
      some (p.length + 10) :=
    BlnCommandDecode.is_frame_complete_eq_some_be h7 h8 hp (by omega)
  have htake9 : (corrupt_frame_be c p b).take (p.length + 10 - 1) = frame_front_be c p := by
    rw [corrupt_frame_be]
    exact List.take_left' (by omega)
  have hgetb : (corrupt_frame_be c p b).getD (p.length + 10 - 1) 0 = b := by
    rw [corrupt_frame_be, List.getD_append_right _ _ _ _ (by omega)]
    have h0 : p.length + 10 - 1 - (frame_front_be c p).length = 0 := by omega
    rw [h0]
    rfl
  rw [BlnCommandDecode.parse_protocol_frame, BlnCommandDecode.parse_go, hfind]
  simp only [hdrop0, hcomp, htake9, hgetb]
  rw [if_neg (Ne.symm hb)]
  have hBlen : (corrupt_frame_be c p b).length = p.length + 9 + 1 := by
    rw [hFlen]
  rw [hBlen]
  have hdrop01 : (corrupt_frame_be c p b).drop (0 + 1) = (corrupt_frame_be c p b).drop 1 := by
    norm_num
  rw [BlnCommandDecode.parse_go, hdrop01, hafter]

theorem BlnProtocol.create_frame_eq (cmd : Command) (c : Nat) (hc : cmd.cmd_type = [c]) :
    BlnProtocol.create_frame cmd = .ok (frame_bytes_le c (cmd.payload.getD [])) := by
  rw [BlnProtocol.create_frame]
  simp [hc, frame_bytes_le, frame_front_le]

theorem BlnCommandEncoder.create_frame_eq_be (cmd : Command) (c : Nat) (hc : cmd.cmd_type = [c]) :
    BlnCommandEncoder.create_frame cmd = .ok (frame_bytes_be c (cmd.payload.getD [])) := by
  rw [BlnCommandEncoder.create_frame]
  simp [hc, frame_bytes_be, frame_front_be]

theorem getD_take_of_lt (l : List Nat) (n i : Nat) (d : Nat) (h : i < n) :
    (l.take n).getD i d = l.getD i d := by
  induction l generalizing n i with
  | nil => simp
  | cons a t ih =>
    match n, h with
    | n + 1, h =>
      match i with
      | 0 => simp
      | i + 1 =>
        simp only [List.take_succ_cons, List.getD_cons_succ]
        exact ih n i (by omega)

theorem bln_round_trip_eq (e : BlnProtocolType) (cmd : Command) (c : Nat)
    (h1 : Command.tryFromBlnProtocolType e = .ok cmd) (hc : cmd.cmd_type = [c]) :
    bln_round_trip e =
      .ok ((BlnProtocol.parse_protocol_frame (frame_bytes_le c (cmd.payload.getD []))).1.map
        BlnProtocolType.tryFromCommand) := by
  rw [bln_round_trip, h1]
  simp only [Except.bind]
  rw [BlnProtocol.create_frame_eq cmd c hc]
  simp only [Except.map]

/-! Claim theorems. -/

/-- C1 (counterexample): the round trip on `GetPositionRsq` does not return the
event; the decoded `Command` carries the request code 0x33, which the
command-to-event mapping rejects with `InvalidCommandType`. -/
theorem c1_round_trip_counterexample :
    bln_round_trip .GetPositionRsq = .ok [.error .InvalidCommandType] ∧
    bln_round_trip .GetPositionRsq ≠ .ok [.ok .GetPositionRsq] := by
  constructor
  · decide
  · decide

/-- C1 (amended): for both request events, encoding then parsing recovers
exactly one `Command` with the same command byte and payload and status
`some 0`; mapping that `Command` back through `TryFrom<Command>` fails with
`InvalidCommandType` (the mapping only accepts the response codes 0x91/0x93),
so the full round trip yields `[error InvalidCommandType]`, not `[e]`. -/
theorem c1_amended_round_trip (x y : Nat) :
    BlnProtocol.parse_protocol_frame
        (frame_bytes_le 0x31 (f32ToLeBytes x ++ f32ToLeBytes y)) =
      ([⟨[0x31], some 0, some (f32ToLeBytes x ++ f32ToLeBytes y)⟩], []) ∧
    BlnProtocolType.tryFromCommand ⟨[0x31], some 0, some (f32ToLeBytes x ++ f32ToLeBytes y)⟩ =
      .error .InvalidCommandType ∧
    bln_round_trip (.SetPositionRsq x y) = .ok [.error .InvalidCommandType] ∧
    BlnProtocol.parse_protocol_frame (frame_bytes_le 0x33 []) = ([⟨[0x33], some 0, none⟩], []) ∧
    BlnProtocolType.tryFromCommand ⟨[0x33], some 0, none⟩ = .error .InvalidCommandType ∧
    bln_round_trip .GetPositionRsq = .ok [.error .InvalidCommandType] := by
  have hlen8 : (f32ToLeBytes x ++ f32ToLeBytes y).length = 8 := by
    simp [f32ToLeBytes]
  have hparse1 : BlnProtocol.parse_protocol_frame
      (frame_bytes_le 0x31 (f32ToLeBytes x ++ f32ToLeBytes y)) =
      ([⟨[0x31], some 0, some (f32ToLeBytes x ++ f32ToLeBytes y)⟩], []) := by
    have h := BlnProtocol.parse_good_frame [] 0x31 (f32ToLeBytes x ++ f32ToLeBytes y) [] rfl
      (by rw [hlen8]; norm_num)
    simp only [List.nil_append, List.append_nil] at h
    rw [show BlnProtocol.parse_protocol_frame [] = ([], []) from BlnProtocol.parse_none rfl] at h
    rw [h, hlen8]
    norm_num
  have hmap1 : BlnProtocolType.tryFromCommand
      ⟨[0x31], some 0, some (f32ToLeBytes x ++ f32ToLeBytes y)⟩ =
      .error .InvalidCommandType := by
    simp [BlnProtocolType.tryFromCommand, BlnResponseStatus.fromU8]
  have hparse2 : BlnProtocol.parse_protocol_frame (frame_bytes_le 0x33 []) =
      ([⟨[0x33], some 0, none⟩], []) := by
    have h := BlnProtocol.parse_good_frame [] 0x33 [] [] rfl (by norm_num)
    simp only [List.nil_append, List.append_nil] at h
    rw [show BlnProtocol.parse_protocol_frame [] = ([], []) from BlnProtocol.parse_none rfl] at h
    rw [h]
    norm_num
  refine ⟨hparse1, hmap1, ?_, hparse2, by decide, by decide⟩
  rw [bln_round_trip_eq (.SetPositionRsq x y) ⟨[0x31], none,
    some (f32ToLeBytes x ++ f32ToLeBytes y)⟩ 0x31 rfl rfl]
  rw [show (Option.getD (some (f32ToLeBytes x ++ f32ToLeBytes y)) []) =
    f32ToLeBytes x ++ f32ToLeBytes y from rfl]
  rw [hparse1]
  simp [hmap1]

/-- C2 (counterexample): on the same input buffer — a valid little-endian
frame carrying command 0x31 with an 8-byte payload — `BlnProtocol` parses one
command while `BlnCommandDecode` parses none (it reads the length field
big-endian, sees 0x0800 = 2048, and waits for more bytes), so the two parsers
are not equivalent. -/
theorem c2_counterexample :
    BlnProtocol.parse_protocol_frame
        [0x55, 0xAA, 0x31, 0, 0, 0, 0, 0x08, 0, 0, 0, 0, 0, 0, 0, 0, 0, 0x39] =
      ([⟨[0x31], some 0, some [0, 0, 0, 0, 0, 0, 0, 0]⟩], []) ∧
    BlnCommandDecode.parse_protocol_frame
        [0x55, 0xAA, 0x31, 0, 0, 0, 0, 0x08, 0, 0, 0, 0, 0, 0, 0, 0, 0, 0x39] =
      ([], [0x55, 0xAA, 0x31, 0, 0, 0, 0, 0x08, 0, 0, 0, 0, 0, 0, 0, 0, 0, 0x39]) ∧
    BlnCommandDecode.parse_protocol_frame
        [0x55, 0xAA, 0x31, 0, 0, 0, 0, 0x08, 0, 0, 0, 0, 0, 0, 0, 0, 0, 0x39] ≠
      BlnProtocol.parse_protocol_frame
        [0x55, 0xAA, 0x31, 0, 0, 0, 0, 0x08, 0, 0, 0, 0, 0, 0, 0, 0, 0, 0x39] := by
  refine ⟨by decide, by decide, by decide⟩

/-- C2 (amended): `BlnCommandDecode` is the superseded big-endian variant: it
is self-consistent with the bln crate's own big-endian `BlnCommandEncoder`
(an encoded frame decodes back to the command), it reads the length field at
offsets 7-8 big-endian, and on a BCC mismatch it discards exactly one byte —
not the whole frame — so it is not equivalent to
`BlnProtocol::parse_protocol_frame` (which is little-endian with whole-frame
discard). -/
theorem c2_amended_decoder_behavior (c0 : Nat) (p : List Nat) (b : Nat)
    (hp : p.length ≤ 8191)
    (hb : b ≠ calculate_bcc ((frame_front_be c0 p).drop 2))
    (hafter : find_frame_head? ((corrupt_frame_be c0 p b).drop 1) = none) :
    BlnCommandEncoder.create_frame ⟨[c0], none, some p⟩ = .ok (frame_bytes_be c0 p) ∧
    BlnCommandDecode.parse_protocol_frame (frame_bytes_be c0 p) =
      ([⟨[c0], some 0, if 0 < p.length then some p else none⟩], []) ∧
    BlnCommandDecode.parse_protocol_frame (corrupt_frame_be c0 p b) =
      ([], (corrupt_frame_be c0 p b).drop 1) ∧
    (corrupt_frame_be c0 p b).length - ((corrupt_frame_be c0 p b).drop 1).length = 1 := by
  refine ⟨BlnCommandEncoder.create_frame_eq_be _ c0 rfl, ?_, ?_, ?_⟩
  · have h := BlnCommandDecode.parse_good_frame_be [] c0 p [] rfl hp
    simp only [List.nil_append, List.append_nil] at h
    rw [show BlnCommandDecode.parse_protocol_frame [] = ([], []) from
      BlnCommandDecode.parse_none_be rfl] at h
    exact h
  · exact BlnCommandDecode.parse_bad_frame_be c0 p b hp hb hafter
  · simp only [List.length_drop, corrupt_frame_be_length]
    omega

/-- C2 (amended) witness at a concrete frame: command byte 0x31 with the
one-byte payload [5] and corrupted checksum byte 0. -/
theorem c2_amended_witness :
    BlnCommandEncoder.create_frame ⟨[0x31], none, some [5]⟩ = .ok (frame_bytes_be 0x31 [5]) ∧
    BlnCommandDecode.parse_protocol_frame (frame_bytes_be 0x31 [5]) =
      ([⟨[0x31], some 0, some [5]⟩], []) ∧
    BlnCommandDecode.parse_protocol_frame (corrupt_frame_be 0x31 [5] 0) =
      ([], (corrupt_frame_be 0x31 [5] 0).drop 1) ∧
    (corrupt_frame_be 0x31 [5] 0).length - ((corrupt_frame_be 0x31 [5] 0).drop 1).length = 1 := by
  have h := c2_amended_decoder_behavior 0x31 [5] 0 (by decide) (by decide) (by decide)
  simpa using h

/-- C5: when the parser finds a complete frame whose trailing BCC byte differs
from the checksum of bytes [2, frame_len-1), it emits no command for that
frame, removes exactly the full frame span of 10 + payload_len bytes, and
continues scanning the remaining buffer. -/
theorem c5_corrupt_frame_discard (c : Nat) (p : List Nat) (b : Nat) (rest : List Nat)
    (hp : p.length ≤ 8191)
    (hb : b ≠ calculate_bcc ((frame_front_le c p).drop 2)) :
    (corrupt_frame_le c p b).length = p.length + 10 ∧
    BlnProtocol.parse_protocol_frame (corrupt_frame_le c p b ++ rest) =
      BlnProtocol.parse_protocol_frame rest := by
  refine ⟨corrupt_frame_le_length c p b, ?_⟩
  have h := BlnProtocol.parse_bad_frame [] c p b rest rfl hp hb
  simpa using h

/-- C5 witness: a concrete corrupt frame (command 0x31, payload [5], wrong
checksum byte 0) followed by the bytes [1, 2]. -/
theorem c5_witness :
    (corrupt_frame_le 0x31 [5] 0).length = 11 ∧
    BlnProtocol.parse_protocol_frame (corrupt_frame_le 0x31 [5] 0 ++ [1, 2]) =
      BlnProtocol.parse_protocol_frame [1, 2] := by
  have h := c5_corrupt_frame_discard 0x31 [5] 0 [1, 2] (by decide) (by decide)
  simpa using h

/-- C6: the parse loop terminates on every finite buffer — any iteration bound
above the buffer length gives the same result as the function itself — and on
noise (containing no sync pattern) followed by one valid frame followed by
sync-free trailing bytes it returns exactly one command and leaves exactly the
trailing bytes. -/
theorem c6_termination_resync (fuel : Nat) (buf ns : List Nat) (c : Nat) (p trail : List Nat)
    (hfuel : buf.length < fuel)
    (hns : find_frame_head? ns = none) (hp : p.length ≤ 8191)
    (htrail : find_frame_head? trail = none) :
    BlnProtocol.parse_go fuel buf = BlnProtocol.parse_protocol_frame buf ∧
    BlnProtocol.parse_protocol_frame (ns ++ (frame_bytes_le c p ++ trail)) =
      ([⟨[c], some 0, if 0 < p.length then some p else none⟩], trail) := by
  constructor
  · rw [BlnProtocol.parse_protocol_frame]
    exact BlnProtocol.parse_go_congr fuel _ buf hfuel (Nat.lt_succ_self _)
  · rw [BlnProtocol.parse_good_frame ns c p trail hns hp,
      BlnProtocol.parse_none htrail]

/-- C6 witness: three noise bytes, the `GetPositionRsq` frame, one trailing
byte; and fuel 20 on the noise buffer. -/
theorem c6_witness :
    BlnProtocol.parse_go 20 [1, 2, 3] = BlnProtocol.parse_protocol_frame [1, 2, 3] ∧
    BlnProtocol.parse_protocol_frame ([1, 2, 3] ++ (frame_bytes_le 0x33 [] ++ [9])) =
      ([⟨[0x33], some 0, none⟩], [9]) := by
  have h := c6_termination_resync 20 [1, 2, 3] [1, 2, 3] 0x33 [] [9]
    (by decide) (by decide) (by decide) (by decide)
  simpa using h

/-- C8: the event-to-command mapping succeeds exactly on the two request
variants — `SetPositionRsq` maps to command byte 0x31 with no status and the
two little-endian f32 payload, `GetPositionRsq` to 0x33 with no status and no
payload — and every device-originated variant fails with
`InvalidCommandType`. -/
theorem c8_to_command (x y f : Nat) (cause : BlnErrorCause) :
    Command.tryFromBlnProtocolType (.SetPositionRsq x y) =
      .ok ⟨[0x31], none, some (f32ToLeBytes x ++ f32ToLeBytes y)⟩ ∧
    Command.tryFromBlnProtocolType .GetPositionRsq = .ok ⟨[0x33], none, none⟩ ∧
    Command.tryFromBlnProtocolType .SetPositionRsp = .error .InvalidCommandType ∧
    Command.tryFromBlnProtocolType (.PositionReached x y) = .error .InvalidCommandType ∧
    Command.tryFromBlnProtocolType (.GetPositionRsp x y f) = .error .InvalidCommandType ∧
    Command.tryFromBlnProtocolType (.ErrorRsp cause) = .error .InvalidCommandType :=
  ⟨rfl, rfl, rfl, rfl, rfl, rfl⟩

/-- C10: the command-to-event mapping depends on `cmd_type` only through its
first byte — a command with extra trailing `cmd_type` bytes maps exactly as
the one-byte command — and only an empty `cmd_type` produces
`InvalidCommandType` from the `cmd_type` check. -/
theorem c10_first_byte_only (c : Nat) (cs : List Nat) (st : Option Nat)
    (pl : Option (List Nat)) :
    BlnProtocolType.tryFromCommand ⟨c :: cs, st, pl⟩ =
      BlnProtocolType.tryFromCommand ⟨[c], st, pl⟩ ∧
    BlnProtocolType.tryFromCommand ⟨[], st, pl⟩ = .error .InvalidCommandType :=
  ⟨rfl, rfl⟩

/-- C3 (counterexample): the spec's ten-byte frame
`55 AA 91 00 00 00 00 02 00 93` declares payload length 2 but carries no
payload bytes, so the parser treats it as incomplete and decodes no `Command`
at all — nothing reaches the mapping to fail with `InvalidPayload`. -/
theorem c3_counterexample :
    BlnProtocol.parse_protocol_frame [0x55, 0xAA, 0x91, 0, 0, 0, 0, 0x02, 0, 0x93] =
      ([], [0x55, 0xAA, 0x91, 0, 0, 0, 0, 0x02, 0, 0x93]) ∧
    (BlnProtocol.parse_protocol_frame [0x55, 0xAA, 0x91, 0, 0, 0, 0, 0x02, 0, 0x93]).1.map
        BlnProtocolType.tryFromCommand ≠ [.error .InvalidPayload] := by
  refine ⟨by decide, by decide⟩

/-- C3 (amended): the command-to-event mapping decides exactly in the claimed
order for every command with a nonempty `cmd_type` (an empty `cmd_type` fails
first with `InvalidCommandType`), and the spec's scenario holds once the
declared 2-byte payload is actually present: the completed 12-byte frame
decodes to one `Command` (cmd 0x91, status 0, payload length 2) whose mapping
fails with `InvalidPayload`. -/
theorem c3_amended_to_event (c : Nat) (cs : List Nat) (s : Nat) (st : Option Nat)
    (pl : Option (List Nat)) (l : List Nat) (bt : Nat) :
    (BlnProtocolType.tryFromCommand ⟨c :: cs, none, pl⟩ = .error .InvalidPayload) ∧
    (BlnProtocolType.tryFromCommand ⟨[], st, pl⟩ = .error .InvalidCommandType) ∧
    (BlnResponseStatus.fromU8 s = .Error →
      BlnProtocolType.tryFromCommand ⟨c :: cs, some s, some [bt]⟩ =
        .ok (.ErrorRsp (BlnErrorCause.fromU8 bt))) ∧
    (BlnResponseStatus.fromU8 s = .Error →
      BlnProtocolType.tryFromCommand ⟨c :: cs, some s, none⟩ = .error .InvalidPayload) ∧
    (BlnResponseStatus.fromU8 s = .Error → l.length ≠ 1 →
      BlnProtocolType.tryFromCommand ⟨c :: cs, some s, some l⟩ = .error .InvalidPayload) ∧
    (BlnResponseStatus.fromU8 s = .Ok →
      BlnProtocolType.tryFromCommand ⟨0x91 :: cs, some s, none⟩ = .ok .SetPositionRsp) ∧
    (BlnResponseStatus.fromU8 s = .Ok →
      BlnProtocolType.tryFromCommand ⟨0x91 :: cs, some s, some l⟩ = .error .InvalidPayload) ∧
    (BlnResponseStatus.fromU8 s = .OkWithData → l.length = 8 →
      BlnProtocolType.tryFromCommand ⟨0x91 :: cs, some s, some l⟩ =
        .ok (.PositionReached (f32FromLeBytes (l.take 4)) (f32FromLeBytes (l.drop 4)))) ∧
    (BlnResponseStatus.fromU8 s = .OkWithData → l.length ≠ 8 →
      BlnProtocolType.tryFromCommand ⟨0x91 :: cs, some s, some l⟩ = .error .InvalidPayload) ∧
    (BlnResponseStatus.fromU8 s = .OkWithData →
      BlnProtocolType.tryFromCommand ⟨0x91 :: cs, some s, none⟩ = .error .InvalidPayload) ∧
    (BlnResponseStatus.fromU8 s = .Unused ∨ BlnResponseStatus.fromU8 s = .Reserved →
      BlnProtocolType.tryFromCommand ⟨0x91 :: cs, some s, pl⟩ = .error .InvalidPayload) ∧
    (BlnResponseStatus.fromU8 s ≠ .Error → BlnResponseStatus.fromU8 s ≠ .OkWithData →
      BlnProtocolType.tryFromCommand ⟨0x93 :: cs, some s, pl⟩ = .error .InvalidPayload) ∧
    (BlnResponseStatus.fromU8 s = .OkWithData → l.length = 9 →
      BlnProtocolType.tryFromCommand ⟨0x93 :: cs, some s, some l⟩ =
        .ok (.GetPositionRsp (f32FromLeBytes (l.take 4))
          (f32FromLeBytes ((l.drop 4).take 4)) (l.getD 8 0))) ∧
    (BlnResponseStatus.fromU8 s = .OkWithData → l.length ≠ 9 →
      BlnProtocolType.tryFromCommand ⟨0x93 :: cs, some s, some l⟩ = .error .InvalidPayload) ∧
    (BlnResponseStatus.fromU8 s = .OkWithData →
      BlnProtocolType.tryFromCommand ⟨0x93 :: cs, some s, none⟩ = .error .InvalidPayload) ∧
    (c ≠ 0x91 → c ≠ 0x93 → BlnResponseStatus.fromU8 s ≠ .Error →
      BlnProtocolType.tryFromCommand ⟨c :: cs, some s, pl⟩ = .error .InvalidCommandType) ∧
    (BlnProtocol.parse_protocol_frame [0x55, 0xAA, 0x91, 0, 0, 0, 0, 0x02, 0, 0, 0, 0x93] =
        ([⟨[0x91], some 0, some [0, 0]⟩], []) ∧
      BlnProtocolType.tryFromCommand ⟨[0x91], some 0, some [0, 0]⟩ =
        .error .InvalidPayload) := by
  refine ⟨rfl, rfl, ?_, ?_, ?_, ?_, ?_, ?_, ?_, ?_, ?_, ?_, ?_, ?_, ?_, ?_, by decide, by decide⟩
  · intro h
    simp [BlnProtocolType.tryFromCommand, h]
  · intro h
    simp [BlnProtocolType.tryFromCommand, h]
  · intro h hl
    simp [BlnProtocolType.tryFromCommand, h, hl]
  · intro h
    simp [BlnProtocolType.tryFromCommand, h]
  · intro h
    simp [BlnProtocolType.tryFromCommand, h]
  · intro h hl
    simp [BlnProtocolType.tryFromCommand, h, hl]
  · intro h hl
    simp [BlnProtocolType.tryFromCommand, h, hl]
  · intro h
    simp [BlnProtocolType.tryFromCommand, h]
  · intro h
    rcases h with h | h <;> simp [BlnProtocolType.tryFromCommand, h]
  · intro h1 h2
    simp [BlnProtocolType.tryFromCommand, h2]
    intro hcontra
    cases BlnResponseStatus.fromU8 s <;> simp_all
  · intro h hl
    simp [BlnProtocolType.tryFromCommand, h, hl]
  · intro h hl
    simp [BlnProtocolType.tryFromCommand, h, hl]
  · intro h
    simp [BlnProtocolType.tryFromCommand, h]
  · intro h1 h2 h3
    simp [BlnProtocolType.tryFromCommand, h1, h2, h3]

/-- C3 witness: the spec's scenario — command 0x91, status byte 0 (Unused),
2-byte payload — fails with `InvalidPayload`, via the 0x91 other-status
clause. -/
theorem c3_witness :
    BlnProtocolType.tryFromCommand ⟨[0x91], some 0, some [0, 0]⟩ =
      .error .InvalidPayload := by
  obtain ⟨-, -, -, -, -, -, -, -, -, -, h11, -⟩ :=
    c3_amended_to_event 0x91 [] 0 none (some [0, 0]) [0, 0] 0
  exact h11 (Or.inl (by decide))

/-- C4: the encoder fails with `InvalidCommandType` exactly when `cmd_type` is
not one byte; for a one-byte `cmd_type` and a payload of at most 8191 bytes
the frame is sync word, command byte, four zero bytes, the little-endian
length bytes, the payload, then the XOR checksum over bytes [2, end of
payload]; and the emitted length field decodes back to exactly the payload
length with the three status bits zero. -/
theorem c4_create_frame_layout (cmd : Command) (c : Nat) :
    (cmd.cmd_type.length ≠ 1 →
      BlnProtocol.create_frame cmd = .error .InvalidCommandType) ∧
    (cmd.cmd_type.length = 1 → ∃ F, BlnProtocol.create_frame cmd = .ok F) ∧
    (cmd.cmd_type = [c] → (cmd.payload.getD []).length ≤ 8191 →
      BlnProtocol.create_frame cmd =
        .ok (0x55 :: 0xAA :: c :: 0 :: 0 :: 0 :: 0 ::
          ((cmd.payload.getD []).length % 256) :: ((cmd.payload.getD []).length / 256 % 256) ::
          (cmd.payload.getD [] ++
            [calculate_bcc (c :: 0 :: 0 :: 0 :: 0 ::
              ((cmd.payload.getD []).length % 256) ::
              ((cmd.payload.getD []).length / 256 % 256) :: cmd.payload.getD [])])) ∧
      decode_length_flags (u16FromLeBytes ((cmd.payload.getD []).length % 256)
        ((cmd.payload.getD []).length / 256 % 256)) = ((cmd.payload.getD []).length, 0)) := by
  refine ⟨?_, ?_, ?_⟩
  · intro h
    rw [BlnProtocol.create_frame, if_pos h]
  · intro h
    cases hct : cmd.cmd_type with
    | nil => rw [hct] at h; simp at h
    | cons a t =>
      cases t with
      | nil => exact ⟨_, BlnProtocol.create_frame_eq cmd a hct⟩
      | cons b t2 => rw [hct] at h; simp at h
  · intro hc hp
    constructor
    · rw [BlnProtocol.create_frame_eq cmd c hc]
      have h1 : frame_bytes_le c (cmd.payload.getD []) ++ ([] : List Nat) =
          frame_bytes_le c (cmd.payload.getD []) := by simp
      rw [← h1, frame_bytes_le_cons]
      have h2 : (frame_front_le c (cmd.payload.getD [])).drop 2 =
          c :: 0 :: 0 :: 0 :: 0 :: ((cmd.payload.getD []).length % 256) ::
            ((cmd.payload.getD []).length / 256 % 256) :: cmd.payload.getD [] := rfl
      rw [h2]
    · have hfield : u16FromLeBytes ((cmd.payload.getD []).length % 256)
          ((cmd.payload.getD []).length / 256 % 256) = (cmd.payload.getD []).length := by
        simp [u16FromLeBytes]
        omega
      rw [hfield, decode_length_flags_of_le hp]

/-- C4 witness at a concrete command: byte 0x31 with payload [1, 2], and an
invalid two-byte `cmd_type`. -/
theorem c4_witness :
    BlnProtocol.create_frame ⟨[0x31, 0x32], none, none⟩ = .error .InvalidCommandType ∧
    BlnProtocol.create_frame ⟨[0x31], none, some [1, 2]⟩ =
      .ok [0x55, 0xAA, 0x31, 0, 0, 0, 0, 2, 0, 1, 2,
        calculate_bcc [0x31, 0, 0, 0, 0, 2, 0, 1, 2]] ∧
    decode_length_flags (u16FromLeBytes 2 0) = (2, 0) := by
  have ha := (c4_create_frame_layout ⟨[0x31, 0x32], none, none⟩ 0).1 (by decide)
  have hb := (c4_create_frame_layout ⟨[0x31], none, some [1, 2]⟩ 0x31).2.2 rfl (by decide)
  exact ⟨ha, by simpa using hb.1, by simpa using hb.2⟩

/-- C7: with a sync word at the front of the buffer and fewer bytes than
10 + payload_len (payload_len read from the low 13 bits of the little-endian
field at offsets 7-8), the parser consumes nothing; every proper byte-prefix
of a valid frame likewise parses to no commands with the buffer untouched,
and the full frame parses to exactly one command. -/
theorem c7_partial_frame (buf : List Nat) (c : Nat) (p : List Nat) (k : Nat)
    (hsync : buf.take 2 = [0x55, 0xAA])
    (hshort : buf.length <
      (decode_length_flags (u16FromLeBytes (buf.getD 7 0) (buf.getD 8 0))).1 + 10)
    (hp : p.length ≤ 8191) (hk : k < (frame_bytes_le c p).length) :
    BlnProtocol.parse_protocol_frame buf = ([], buf) ∧
    BlnProtocol.parse_protocol_frame ((frame_bytes_le c p).take k) =
      ([], (frame_bytes_le c p).take k) ∧
    BlnProtocol.parse_protocol_frame (frame_bytes_le c p) =
      ([⟨[c], some 0, if 0 < p.length then some p else none⟩], []) := by
  have hlenF := frame_bytes_le_length c p
  have hconsF : frame_bytes_le c p =
      0x55 :: 0xAA :: c :: 0 :: 0 :: 0 :: 0 :: (p.length % 256) :: (p.length / 256 % 256) ::
        (p ++ [calculate_bcc ((frame_front_le c p).drop 2)]) := by
    have h1 : frame_bytes_le c p ++ ([] : List Nat) = frame_bytes_le c p := by simp
    rw [← h1, frame_bytes_le_cons]
  refine ⟨?_, ?_, ?_⟩
  · obtain ⟨t, rfl⟩ : ∃ t, buf = 0x55 :: 0xAA :: t := by
      match buf, hsync with
      | a :: b :: t, hs =>
        simp at hs
        exact ⟨t, by rw [hs.1, hs.2]⟩
    have hcompn : BlnProtocol.is_frame_complete (0x55 :: 0xAA :: t) = none := by
      rw [BlnProtocol.is_frame_complete]
      by_cases h10 : (0x55 :: 0xAA :: t : List Nat).length < 10
      · rw [if_pos h10]
      · rw [if_neg h10]
        show (if (0x55 :: 0xAA :: t : List Nat).length <
            (decode_length_flags (u16FromLeBytes ((0x55 :: 0xAA :: t : List Nat).getD 7 0)
              ((0x55 :: 0xAA :: t : List Nat).getD 8 0))).1 + 10 then none
          else some ((decode_length_flags (u16FromLeBytes
            ((0x55 :: 0xAA :: t : List Nat).getD 7 0)
            ((0x55 :: 0xAA :: t : List Nat).getD 8 0))).1 + 10)) = none
        rw [if_pos hshort]
    rw [BlnProtocol.parse_protocol_frame, BlnProtocol.parse_go,
      find_frame_head?_cons_sync t]
    simp [hcompn]
  · by_cases hk2 : k ≤ 1
    · have hshortlen : ((frame_bytes_le c p).take k).length ≤ 1 := by
        simp [List.length_take]
        omega
      rw [BlnProtocol.parse_none (find_frame_head?_short hshortlen)]
    · obtain ⟨k2, rfl⟩ : ∃ k2, k = k2 + 2 := ⟨k - 2, by omega⟩
      have htake2 : (frame_bytes_le c p).take (k2 + 2) =
          0x55 :: 0xAA :: (c :: 0 :: 0 :: 0 :: 0 :: (p.length % 256) ::
            (p.length / 256 % 256) ::
            (p ++ [calculate_bcc ((frame_front_le c p).drop 2)])).take k2 := by
        rw [hconsF]
        simp [List.take_succ_cons]
      have hfind2 : find_frame_head? ((frame_bytes_le c p).take (k2 + 2)) = some 0 := by
        rw [htake2]
        exact find_frame_head?_cons_sync _
      have hlentake : ((frame_bytes_le c p).take (k2 + 2)).length = k2 + 2 := by
        simp [List.length_take]
        omega
      have hcompn2 : BlnProtocol.is_frame_complete ((frame_bytes_le c p).take (k2 + 2)) =
          none := by
        rw [BlnProtocol.is_frame_complete]
        by_cases h10 : ((frame_bytes_le c p).take (k2 + 2)).length < 10
        · rw [if_pos h10]
        · rw [if_neg h10]
          show (if ((frame_bytes_le c p).take (k2 + 2)).length <
              (decode_length_flags (u16FromLeBytes
                (((frame_bytes_le c p).take (k2 + 2)).getD 7 0)
                (((frame_bytes_le c p).take (k2 + 2)).getD 8 0))).1 + 10 then none
            else some ((decode_length_flags (u16FromLeBytes
              (((frame_bytes_le c p).take (k2 + 2)).getD 7 0)
              (((frame_bytes_le c p).take (k2 + 2)).getD 8 0))).1 + 10)) = none
          have h7t : ((frame_bytes_le c p).take (k2 + 2)).getD 7 0 = p.length % 256 := by
            rw [getD_take_of_lt _ _ _ _ (by rw [hlentake] at h10; omega), hconsF]
            rfl
          have h8t : ((frame_bytes_le c p).take (k2 + 2)).getD 8 0 =
              p.length / 256 % 256 := by
            rw [getD_take_of_lt _ _ _ _ (by rw [hlentake] at h10; omega), hconsF]
            rfl
          have hfield : u16FromLeBytes (p.length % 256) (p.length / 256 % 256) =
              p.length := by
            simp [u16FromLeBytes]
            omega
          rw [h7t, h8t, hfield, decode_length_flags_of_le hp, hlentake]
          have hlt : k2 + 2 < p.length + 10 := by omega
          rw [if_pos hlt]
      rw [BlnProtocol.parse_protocol_frame, BlnProtocol.parse_go, hfind2]
      simp [hcompn2]
  · have h := BlnProtocol.parse_good_frame [] c p [] rfl hp
    simp only [List.nil_append, List.append_nil] at h
    rw [show BlnProtocol.parse_protocol_frame [] = ([], []) from BlnProtocol.parse_none rfl] at h
    exact h

/-- C7 witness: the first 17 bytes of the 18-byte `SetPositionRsq` frame do
not parse, and the full frame parses to one command; a 10-byte sync-headed
buffer whose declared payload length is 2 is also left untouched. -/
theorem c7_witness :
    BlnProtocol.parse_protocol_frame [0x55, 0xAA, 0x91, 0, 0, 0, 0, 2, 0, 0] =
      ([], [0x55, 0xAA, 0x91, 0, 0, 0, 0, 2, 0, 0]) ∧
    BlnProtocol.parse_protocol_frame ((frame_bytes_le 0x31 [1, 2, 3, 4, 5, 6, 7, 8]).take 17) =
      ([], (frame_bytes_le 0x31 [1, 2, 3, 4, 5, 6, 7, 8]).take 17) ∧
    BlnProtocol.parse_protocol_frame (frame_bytes_le 0x31 [1, 2, 3, 4, 5, 6, 7, 8]) =
      ([⟨[0x31], some 0, some [1, 2, 3, 4, 5, 6, 7, 8]⟩], []) := by
  have h := c7_partial_frame [0x55, 0xAA, 0x91, 0, 0, 0, 0, 2, 0, 0] 0x31
    [1, 2, 3, 4, 5, 6, 7, 8] 17 (by decide) (by decide) (by decide) (by decide)
  simpa using h

theorem BlnProtocol.decode_frame_shape (bufi : List Nat) (L : Nat)
    (hcomp : BlnProtocol.is_frame_complete bufi = some L) :
    (BlnProtocol.decode_frame (bufi.take L)).cmd_type.length = 1 ∧
    (∃ s, (BlnProtocol.decode_frame (bufi.take L)).response_status = some s ∧ s ≤ 7) ∧
    (∃ n, n ≤ 8191 ∧
      ((n = 0 ∧ (BlnProtocol.decode_frame (bufi.take L)).payload = none) ∨
        (0 < n ∧ ∃ pl, (BlnProtocol.decode_frame (bufi.take L)).payload = some pl ∧
          pl.length = n))) := by
  rw [BlnProtocol.is_frame_complete] at hcomp
  by_cases h10 : bufi.length < 10
  · rw [if_pos h10] at hcomp
    exact absurd hcomp (by simp)
  · rw [if_neg h10] at hcomp
    simp only [] at hcomp
    by_cases h2 : bufi.length <
        (decode_length_flags (u16FromLeBytes (bufi.getD 7 0) (bufi.getD 8 0))).1 + 10
    · rw [if_pos h2] at hcomp
      exact absurd hcomp (by simp)
    · rw [if_neg h2] at hcomp
      have hL : L = (decode_length_flags (u16FromLeBytes (bufi.getD 7 0) (bufi.getD 8 0))).1
          + 10 := (Option.some.inj hcomp).symm
      have h7 : (bufi.take L).getD 7 0 = bufi.getD 7 0 :=
        getD_take_of_lt _ _ _ _ (by omega)
      have h8 : (bufi.take L).getD 8 0 = bufi.getD 8 0 :=
        getD_take_of_lt _ _ _ _ (by omega)
      have h2t : (bufi.take L).getD 2 0 = bufi.getD 2 0 :=
        getD_take_of_lt _ _ _ _ (by omega)
      have hdf : BlnProtocol.decode_frame (bufi.take L) =
          ⟨[bufi.getD 2 0],
            some ((u16FromLeBytes (bufi.getD 7 0) (bufi.getD 8 0) &&& 0xE000) >>> 13),
            if 0 < u16FromLeBytes (bufi.getD 7 0) (bufi.getD 8 0) &&& 0x1FFF then
              some (((bufi.take L).drop 9).take
                (u16FromLeBytes (bufi.getD 7 0) (bufi.getD 8 0) &&& 0x1FFF))
            else none⟩ := by
        rw [BlnProtocol.decode_frame, h2t, h7, h8]
        rfl
      have hn8191 := and_1fff_le (u16FromLeBytes (bufi.getD 7 0) (bufi.getD 8 0))
      have hone : (decode_length_flags (u16FromLeBytes (bufi.getD 7 0) (bufi.getD 8 0))).1 =
          u16FromLeBytes (bufi.getD 7 0) (bufi.getD 8 0) &&& 0x1FFF := rfl
      refine ⟨?_, ⟨(u16FromLeBytes (bufi.getD 7 0) (bufi.getD 8 0) &&& 0xE000) >>> 13, ?_,
        flags_le_seven _⟩,
        ⟨u16FromLeBytes (bufi.getD 7 0) (bufi.getD 8 0) &&& 0x1FFF, hn8191, ?_⟩⟩
      · rw [hdf]
        rfl
      · rw [hdf]
      · by_cases hpos : 0 < u16FromLeBytes (bufi.getD 7 0) (bufi.getD 8 0) &&& 0x1FFF
        · refine Or.inr ⟨hpos, ((bufi.take L).drop 9).take
            (u16FromLeBytes (bufi.getD 7 0) (bufi.getD 8 0) &&& 0x1FFF), ?_, ?_⟩
          · rw [hdf, if_pos hpos]
          · rw [List.length_take, List.length_drop, List.length_take]
            omega
        · refine Or.inl ⟨by omega, ?_⟩
          rw [hdf, if_neg hpos]

theorem BlnProtocol.parse_go_invariant :
    ∀ (fuel : Nat) (buf : List Nat) (cmd : Command),
      cmd ∈ (BlnProtocol.parse_go fuel buf).1 →
        cmd.cmd_type.length = 1 ∧
        (∃ s, cmd.response_status = some s ∧ s ≤ 7) ∧
        (∃ n, n ≤ 8191 ∧
          ((n = 0 ∧ cmd.payload = none) ∨
            (0 < n ∧ ∃ pl, cmd.payload = some pl ∧ pl.length = n))) := by
  intro fuel
  induction fuel with
  | zero =>
    intro buf cmd h
    simp [BlnProtocol.parse_go] at h
  | succ f ih =>
    intro buf cmd h
    rw [BlnProtocol.parse_go] at h
    cases hfind : find_frame_head? buf with
    | none =>
      rw [hfind] at h
      simp at h
    | some i =>
      rw [hfind] at h
      simp only [] at h
      cases hcomp : BlnProtocol.is_frame_complete (buf.drop i) with
      | none =>
        rw [hcomp] at h
        simp at h
      | some L =>
        rw [hcomp] at h
        simp only [] at h
        by_cases hb : calculate_bcc (((buf.drop i).take (L - 1)).drop 2) =
            (buf.drop i).getD (L - 1) 0
        · rw [if_pos hb] at h
          simp only [List.mem_cons] at h
          cases h with
          | inl heq =>
            rw [heq]
            exact BlnProtocol.decode_frame_shape _ L hcomp
          | inr hmem => exact ih _ cmd hmem
        · rw [if_neg hb] at h
          exact ih _ cmd h

/-- C9: every command produced by the parser has a one-byte `cmd_type`, a
present status of at most 7 (the three high bits of the length field), and a
payload that is `none` exactly when the decoded 13-bit length is zero and
otherwise `some` of a sequence of that length (1 to 8191) — in particular
never `some` of an empty sequence. -/
theorem c9_decoder_invariant (buf : List Nat) (cmd : Command)
    (hmem : cmd ∈ (BlnProtocol.parse_protocol_frame buf).1) :
    cmd.cmd_type.length = 1 ∧
    (∃ s, cmd.response_status = some s ∧ s ≤ 7) ∧
    (∃ n, n ≤ 8191 ∧
      ((n = 0 ∧ cmd.payload = none) ∨
        (0 < n ∧ ∃ pl, cmd.payload = some pl ∧ pl.length = n))) :=
  BlnProtocol.parse_go_invariant _ buf cmd hmem

/-- C9 witness: the command decoded from the completed 12-byte 0x91 frame. -/
theorem c9_witness :
    (⟨[0x91], some 0, some [0, 0]⟩ : Command).cmd_type.length = 1 ∧
    (∃ s, (⟨[0x91], some 0, some [0, 0]⟩ : Command).response_status = some s ∧ s ≤ 7) ∧
    (∃ n, n ≤ 8191 ∧
      ((n = 0 ∧ (⟨[0x91], some 0, some [0, 0]⟩ : Command).payload = none) ∨
        (0 < n ∧ ∃ pl, (⟨[0x91], some 0, some [0, 0]⟩ : Command).payload = some pl ∧
          pl.length = n))) :=
  c9_decoder_invariant [0x55, 0xAA, 0x91, 0, 0, 0, 0, 0x02, 0, 0, 0, 0x93]
    ⟨[0x91], some 0, some [0, 0]⟩ (by decide)

end Lazynet
